import Mathlib

namespace CM

/-- JSON values as produced by Python's `json.loads`.  Numbers are modelled as
integers (floating point is out of scope); objects are insertion-ordered
association lists, as Python dicts are. -/
inductive Json where
  | null
  | bool (b : Bool)
  | num (n : Int)
  | str (s : String)
  | arr (elems : List Json)
  | obj (fields : List (String × Json))

/-- Lowercase hexadecimal digit, as in Python's `'\u%04x'.format`. -/
def hexDigitChar (n : Nat) : Char :=
  if n < 10 then Char.ofNat (48 + n) else Char.ofNat (87 + n)

def hex4 (n : Nat) : List Char :=
  [hexDigitChar (n / 4096 % 16), hexDigitChar (n / 256 % 16),
   hexDigitChar (n / 16 % 16), hexDigitChar (n % 16)]

/-- Escape one character the way `json.dumps` (ensure_ascii) does. -/
def escapeChar (c : Char) : List Char :=
  if c = '"' then ['\\', '"']
  else if c = '\\' then ['\\', '\\']
  else if c = '\n' then ['\\', 'n']
  else if c = '\r' then ['\\', 'r']
  else if c = '\t' then ['\\', 't']
  else if c.toNat = 8 then ['\\', 'b']
  else if c.toNat = 12 then ['\\', 'f']
  else if 32 ≤ c.toNat ∧ c.toNat ≤ 126 then [c]
  else if c.toNat < 65536 then '\\' :: 'u' :: hex4 c.toNat
  else
    ('\\' :: 'u' :: hex4 (55296 + (c.toNat - 65536) / 1024)) ++
    ('\\' :: 'u' :: hex4 (56320 + (c.toNat - 65536) % 1024))

def escapeString : List Char → List Char
  | [] => []
  | c :: rest => escapeChar c ++ escapeString rest

def digitChar (n : Nat) : Char := Char.ofNat (48 + n)

def natDigitsAux : Nat → Nat → List Char
  | 0, _ => []
  | fuel + 1, n =>
    if n < 10 then [digitChar n]
    else natDigitsAux fuel (n / 10) ++ [digitChar (n % 10)]

/-- Decimal digits of a natural number, most significant first. -/
def natDigits (n : Nat) : List Char := natDigitsAux (n + 1) n

/-- Decimal rendering of a Python int. -/
def intChars (i : Int) : List Char :=
  if i < 0 then '-' :: natDigits (-i).toNat else natDigits i.toNat

mutual

/-- Embedding of Python `json.dumps` (default options: `ensure_ascii=True`,
separators `", "` and `": "`), producing the character list of the output. -/
def dumpsChars : Json → List Char
  | .null => "null".data
  | .bool true => "true".data
  | .bool false => "false".data
  | .num n => intChars n
  | .str s => '"' :: (escapeString s.data ++ ['"'])
  | .arr es => '[' :: (dumpsElems es ++ [']'])
  | .obj fs => '{' :: (dumpsFields fs ++ ['}'])

def dumpsElems : List Json → List Char
  | [] => []
  | e :: rest => dumpsChars e ++ dumpsSepElems rest

def dumpsSepElems : List Json → List Char
  | [] => []
  | e :: rest => ',' :: ' ' :: (dumpsChars e ++ dumpsSepElems rest)

def dumpsFields : List (String × Json) → List Char
  | [] => []
  | (k, v) :: rest =>
    '"' :: (escapeString k.data ++ '"' :: ':' :: ' ' :: (dumpsChars v ++ dumpsSepFields rest))

def dumpsSepFields : List (String × Json) → List Char
  | [] => []
  | (k, v) :: rest =>
    ',' :: ' ' :: '"' ::
      (escapeString k.data ++ '"' :: ':' :: ' ' :: (dumpsChars v ++ dumpsSepFields rest))

end

def dumpsStr (v : Json) : String := ⟨dumpsChars v⟩

/-! ### The JSON decoder (embedding of `json.loads`, strict mode) -/

def isDigitChar (c : Char) : Bool := 48 ≤ c.toNat ∧ c.toNat ≤ 57

def decodeHexDigit (c : Char) : Option Nat :=
  if 48 ≤ c.toNat ∧ c.toNat ≤ 57 then some (c.toNat - 48)
  else if 97 ≤ c.toNat ∧ c.toNat ≤ 102 then some (c.toNat - 87)
  else if 65 ≤ c.toNat ∧ c.toNat ≤ 70 then some (c.toNat - 55)
  else none

def decodeHex4 (a b c d : Char) : Option Nat :=
  match decodeHexDigit a, decodeHexDigit b, decodeHexDigit c, decodeHexDigit d with
  | some x, some y, some z, some w => some (((x * 16 + y) * 16 + z) * 16 + w)
  | _, _, _, _ => none

def decodeSimpleEscape (c : Char) : Option Char :=
  if c = '"' then some '"'
  else if c = '\\' then some '\\'
  else if c = '/' then some '/'
  else if c = 'b' then some '\x08'
  else if c = 'f' then some '\x0c'
  else if c = 'n' then some '\n'
  else if c = 'r' then some '\r'
  else if c = 't' then some '\t'
  else none

/-- Decode the body of a JSON string (everything after the opening quote),
returning the decoded characters together with the input left after the
closing quote.  Follows Python's strict `py_scanstring`: raw control
characters are rejected, `\uXXXX` escapes are decoded, and a high/low
surrogate escape pair is combined into one character.  (Python would keep a
lone surrogate escape as-is in the string; a Lean `Char` cannot hold a
surrogate, so the model rejects that case instead.) -/
def parseStringBody : Nat → List Char → Except String (List Char × List Char)
  | 0, _ => .error ("Unterminated string")
  | _, [] => .error ("Unterminated string")
  | fuel + 1, c :: rest =>
    if c = '"' then .ok ([], rest)
    else if c = '\\' then
      match rest with
      | [] => .error ("Unterminated string")
      | e :: rest2 =>
        if e = 'u' then
          match rest2 with
          | a :: b :: c2 :: d :: rest3 =>
            match decodeHex4 a b c2 d with
            | none => .error ("Invalid \\uXXXX escape")
            | some n =>
              if 55296 ≤ n ∧ n ≤ 56319 then
                match rest3 with
                | e2 :: u2 :: a2 :: b2 :: c3 :: d2 :: rest4 =>
                  if e2 = '\\' ∧ u2 = 'u' then
                    match decodeHex4 a2 b2 c3 d2 with
                    | none => .error ("Unpaired high surrogate escape")
                    | some m =>
                      if 56320 ≤ m ∧ m ≤ 57343 then
                        match parseStringBody fuel rest4 with
                        | .ok (cs, r) =>
                          .ok (Char.ofNat (65536 + (n - 55296) * 1024 + (m - 56320)) :: cs, r)
                        | .error err => .error err
                      else .error ("Unpaired high surrogate escape")
                  else .error ("Unpaired high surrogate escape")
                | _ => .error ("Unpaired high surrogate escape")
              else if 56320 ≤ n ∧ n ≤ 57343 then .error ("Unpaired low surrogate escape")
              else
                match parseStringBody fuel rest3 with
                | .ok (cs, r) => .ok (Char.ofNat n :: cs, r)
                | .error err => .error err
          | _ => .error ("Invalid \\uXXXX escape")
        else
          match decodeSimpleEscape e with
          | some ch =>
            match parseStringBody fuel rest2 with
            | .ok (cs, r) => .ok (ch :: cs, r)
            | .error err => .error err
          | none => .error ("Invalid \\escape")
    else if c.toNat < 32 then .error ("Invalid control character")
    else
      match parseStringBody fuel rest with
      | .ok (cs, r) => .ok (c :: cs, r)
      | .error err => .error err

def spanDigits : List Char → List Char × List Char
  | [] => ([], [])
  | c :: rest =>
    if isDigitChar c then ((c :: (spanDigits rest).1, (spanDigits rest).2))
    else ([], c :: rest)

def natFromDigits (ds : List Char) : Nat :=
  ds.foldl (fun acc c => acc * 10 + (c.toNat - 48)) 0

/-- Parse a JSON integer literal (without sign).  Mirrors the integer part of
Python's `NUMBER_RE` pattern `(-?(?:0|[1-9]\d*))`: a leading `0` is the whole
integer part. -/
def parseIntBody : List Char → Option (Nat × List Char)
  | [] => none
  | c :: rest =>
    if c = '0' then some (0, rest)
    else if isDigitChar c then
      some (natFromDigits (c :: (spanDigits rest).1), (spanDigits rest).2)
    else none

/-- JSON whitespace (space, tab, newline, carriage return), as in Python's
`json.decoder.WHITESPACE_STR`. -/
def isJsonWs (c : Char) : Bool :=
  c.toNat = 32 ∨ c.toNat = 9 ∨ c.toNat = 10 ∨ c.toNat = 13

def skipWs (s : List Char) : List Char := s.dropWhile isJsonWs

/-- Python dict insertion: an existing key keeps its position and gets the new
value, a new key is appended. -/
def dictInsert : List (String × Json) → String → Json → List (String × Json)
  | [], k, v => [(k, v)]
  | (k0, v0) :: rest, k, v =>
    if k0 = k then (k0, v) :: rest else (k0, v0) :: dictInsert rest k v

/-- Python `dict(pairs)`: fold the parsed key/value pairs into an
insertion-ordered mapping. -/
def pyDict (pairs : List (String × Json)) : List (String × Json) :=
  pairs.foldl (fun m kv => dictInsert m kv.1 kv.2) []

mutual

/-- Parse a single JSON value.  `fuel` bounds the nesting depth; the top-level
entry point supplies more fuel than any input can consume. -/
def parseValue : Nat → List Char → Except String (Json × List Char)
  | 0, _ => .error ("Nesting too deep")
  | fuel + 1, s =>
    match s with
    | [] => .error ("Expecting value")
    | c :: rest =>
      if c = 'n' then
        match rest with
        | c1 :: c2 :: c3 :: r =>
          if c1 = 'u' ∧ c2 = 'l' ∧ c3 = 'l' then .ok (.null, r)
          else .error ("Expecting value")
        | _ => .error ("Expecting value")
      else if c = 't' then
        match rest with
        | c1 :: c2 :: c3 :: r =>
          if c1 = 'r' ∧ c2 = 'u' ∧ c3 = 'e' then .ok (.bool true, r)
          else .error ("Expecting value")
        | _ => .error ("Expecting value")
      else if c = 'f' then
        match rest with
        | c1 :: c2 :: c3 :: c4 :: r =>
          if c1 = 'a' ∧ c2 = 'l' ∧ c3 = 's' ∧ c4 = 'e' then .ok (.bool false, r)
          else .error ("Expecting value")
        | _ => .error ("Expecting value")
      else if c = '"' then
        match parseStringBody (rest.length + 1) rest with
        | .ok (cs, r) => .ok (.str ⟨cs⟩, r)
        | .error e => .error e
      else if c = '[' then parseElems fuel (skipWs rest)
      else if c = '{' then parseFields fuel (skipWs rest)
      else if c = '-' then
        match parseIntBody rest with
        | some (n, r) => .ok (.num (-(n : Int)), r)
        | none => .error ("Expecting value")
      else if isDigitChar c then
        match parseIntBody (c :: rest) with
        | some (n, r) => .ok (.num (n : Int), r)
        | none => .error ("Expecting value")
      else .error ("Expecting value")

/-- Inside an array, after `[` and whitespace: the first element or `]`. -/
def parseElems : Nat → List Char → Except String (Json × List Char)
  | 0, _ => .error ("Nesting too deep")
  | fuel + 1, s =>
    match s with
    | c :: r =>
      if c = ']' then .ok (.arr [], r)
      else
        match parseValue fuel (c :: r) with
        | .ok (v, r2) => parseElemsRest fuel [v] (skipWs r2)
        | .error e => .error e
    | [] =>
      match parseValue fuel [] with
      | .ok (v, r2) => parseElemsRest fuel [v] (skipWs r2)
      | .error e => .error e

/-- Inside an array, after at least one element and whitespace: `,` or `]`. -/
def parseElemsRest : Nat → List Json → List Char → Except String (Json × List Char)
  | 0, _, _ => .error ("Nesting too deep")
  | fuel + 1, acc, s =>
    match s with
    | c :: r =>
      if c = ']' then .ok (.arr acc, r)
      else if c = ',' then
        match parseValue fuel (skipWs r) with
        | .ok (v, r2) => parseElemsRest fuel (acc ++ [v]) (skipWs r2)
        | .error e => .error e
      else .error ("Expecting \x27,\x27 delimiter")
    | [] => .error ("Expecting \x27,\x27 delimiter")

/-- Inside an object, after `{` and whitespace: the first key or `}`. -/
def parseFields : Nat → List Char → Except String (Json × List Char)
  | 0, _ => .error ("Nesting too deep")
  | fuel + 1, s =>
    match s with
    | c :: r =>
      if c = '}' then .ok (.obj [], r)
      else if c = '"' then
        match parseStringBody (r.length + 1) r with
        | .ok (k, r2) =>
          match skipWs r2 with
          | c2 :: r3 =>
            if c2 = ':' then
              match parseValue fuel (skipWs r3) with
              | .ok (v, r4) => parseFieldsRest fuel [(⟨k⟩, v)] (skipWs r4)
              | .error e => .error e
            else .error ("Expecting \x27:\x27 delimiter")
          | [] => .error ("Expecting \x27:\x27 delimiter")
        | .error e => .error e
      else .error ("Expecting property name enclosed in double quotes")
    | [] => .error ("Expecting property name enclosed in double quotes")

/-- Inside an object, after at least one pair and whitespace: `,` or `}`. -/
def parseFieldsRest : Nat → List (String × Json) → List Char →
    Except String (Json × List Char)
  | 0, _, _ => .error ("Nesting too deep")
  | fuel + 1, acc, s =>
    match s with
    | c :: r =>
      if c = '}' then .ok (.obj (pyDict acc), r)
      else if c = ',' then
        match skipWs r with
        | c2 :: r2 =>
          if c2 = '"' then
            match parseStringBody (r2.length + 1) r2 with
            | .ok (k, r3) =>
              match skipWs r3 with
              | c3 :: r4 =>
                if c3 = ':' then
                  match parseValue fuel (skipWs r4) with
                  | .ok (v, r5) => parseFieldsRest fuel (acc ++ [(⟨k⟩, v)]) (skipWs r5)
                  | .error e => .error e
                else .error ("Expecting \x27:\x27 delimiter")
              | [] => .error ("Expecting \x27:\x27 delimiter")
            | .error e => .error e
          else .error ("Expecting property name enclosed in double quotes")
        | [] => .error ("Expecting property name enclosed in double quotes")
      else .error ("Expecting \x27,\x27 delimiter")
    | [] => .error ("Expecting \x27,\x27 delimiter")

end

/-- Embedding of `json.loads`: skip leading whitespace, parse one value,
require only whitespace to remain. -/
def loadsChars (s : List Char) : Except String Json :=
  match parseValue ((skipWs s).length + 1) (skipWs s) with
  | .error e => .error e
  | .ok (v, rest) => if skipWs rest = [] then .ok v else .error ("Extra data")

def loadsStr (s : String) : Except String Json := loadsChars s.data

/-! ### `clean_json_response` (src/llm_client.py) -/

/-- Code points stripped by Python's `str.strip()` (the `str.isspace`
character set). -/
def pyWsCodes : List Nat :=
  [9, 10, 11, 12, 13, 28, 29, 30, 31, 32, 133, 160, 5760,
   8192, 8193, 8194, 8195, 8196, 8197, 8198, 8199, 8200, 8201, 8202,
   8232, 8233, 8239, 8287, 12288]

def isPyWs (c : Char) : Bool := c.toNat ∈ pyWsCodes

/-- Python `str.strip()`: drop the whitespace run at each end. -/
def stripChars (l : List Char) : List Char :=
  (l.dropWhile isPyWs).rdropWhile isPyWs

/-- Python `str.split('\n')`. -/
def splitNL : List Char → List (List Char)
  | [] => [[]]
  | c :: rest =>
    let r := splitNL rest
    if c = '\n' then [] :: r
    else (c :: r.headD []) :: r.tail

/-- Python `'\n'.join(...)`. -/
def joinNL : List (List Char) → List Char
  | [] => []
  | [l] => l
  | l :: l2 :: rest => l ++ '\n' :: joinNL (l2 :: rest)

def fenceChars : List Char := "```".data

def startsFence (l : List Char) : Bool := fenceChars.isPrefixOf l

/-- Python `if lines[0].startswith("```"): lines = lines[1:]`. -/
def dropFenceLine (lines : List (List Char)) : List (List Char) :=
  if startsFence (lines.headD []) then lines.tail else lines

/-- Python `if lines and lines[-1].strip() == "```": lines = lines[:-1]`. -/
def dropClosingFence (lines : List (List Char)) : List (List Char) :=
  if lines ≠ [] ∧ stripChars (lines.getLastD []) = fenceChars
  then lines.dropLast else lines

/-- Embedding of `clean_json_response` from src/llm_client.py: strip the
content; if it starts with a code fence, split into lines, drop the first line
(whatever its language tag) and, when the last line strips to exactly a fence,
drop it too; rejoin and strip again. -/
def cleanChars (l : List Char) : List Char :=
  let content := stripChars l
  let content2 :=
    if startsFence content
    then joinNL (dropClosingFence (dropFenceLine (splitNL content)))
    else content
  stripChars content2

def clean_json_response (content : String) : String := ⟨cleanChars content.data⟩

/-! ### `parse_llm_json_response` (src/generators/utils.py) -/

/-- Python `key in data` / `data[key]` on the parsed mapping. -/
def lookupField : List (String × Json) → String → Option Json
  | [], _ => none
  | (k0, v0) :: rest, k => if k0 = k then some v0 else lookupField rest k

/-- The `for key in possible_keys: if key in data: return data[key]` loop. -/
def firstKeyHit : List String → List (String × Json) → Option Json
  | [], _ => none
  | k :: ks, fields =>
    match lookupField fields k with
    | some v => some v
    | none => firstKeyHit ks fields

def Json.isArr : Json → Bool
  | .arr _ => true
  | _ => false

/-- The `for value in data.values(): if isinstance(value, list): return value`
loop. -/
def firstListValue : List (String × Json) → Option Json
  | [] => none
  | (_, v) :: rest => if v.isArr then some v else firstListValue rest

/-- The `type(data)` text in the unexpected-response-type message. -/
def pyTypeName : Json → String
  | .null => "<class \x27NoneType\x27>"
  | .bool _ => "<class \x27bool\x27>"
  | .num _ => "<class \x27int\x27>"
  | .str _ => "<class \x27str\x27>"
  | .arr _ => "<class \x27list\x27>"
  | .obj _ => "<class \x27dict\x27>"

def defaultKeys : List String := ["items", "data", "results"]

/-- Python `content[:500] if content else "(empty)"`, on the cleaned content. -/
def previewChars (cleaned : List Char) : List Char :=
  if cleaned = [] then "(empty)".data else cleaned.take 500

/-- Embedding of `parse_llm_json_response`.  The first component of the result
is the Python value returned as `parsed_items`; Python's `None` (returned on
failure, but also a possible payload value) is `Json.null`. -/
def parse_llm_json_response (content : String)
    (possible_keys : Option (List String) := none) : Json × Option String :=
  let keys := possible_keys.getD defaultKeys
  let cleaned := cleanChars content.data
  match loadsChars cleaned with
  | .ok data =>
    match data with
    | .arr xs => (.arr xs, none)
    | .obj fields =>
      match firstKeyHit keys fields with
      | some v => (v, none)
      | none =>
        match firstListValue fields with
        | some v => (v, none)
        | none => (.arr [.obj fields], none)
    | other => (.null, some ("Unexpected response type: " ++ pyTypeName other))
  | .error e =>
    (.null, some ("JSON parse error: " ++ e ++ "\nPreview: " ++
      (⟨previewChars cleaned⟩ : String) ++ "..."))

/-- How `parse_llm_json_response` behaves as invoked with a Python `Optional[str]`: passing
`None` reaches `clean_json_response`, where `content.strip()` raises
`AttributeError` (only `json.JSONDecodeError` is caught), so no result pair is
returned. -/
inductive PyExc where
  | attributeError
deriving DecidableEq

def parse_llm_json_response_py (content : Option String)
    (possible_keys : Option (List String) := none) :
    Except PyExc (Json × Option String) :=
  match content with
  | none => .error .attributeError
  | some s => .ok (parse_llm_json_response s possible_keys)

/-! ### Orchestration (`check_api_key`, `run_generation`, src/generators/utils.py) -/

/-- The process environment, an external collaborator of `os.getenv`. -/
structure Env where
  vars : String → Option String

/-- ASCII lowercasing, for `provider.lower()` (provider names are ASCII). -/
def lowerAscii (s : String) : String :=
  ⟨s.data.map fun c =>
    if 65 ≤ c.toNat ∧ c.toNat ≤ 90 then Char.ofNat (c.toNat + 32) else c⟩

/-- Python truthiness of `os.getenv(k)`: unset or empty means falsy. -/
def envTruthy (env : Env) (k : String) : Bool :=
  match env.vars k with
  | none => false
  | some v => v ≠ ""

/-- Embedding of `check_api_key`: read `LLM_PROVIDER` (default `"openai"`),
lowercase it, and require the provider-specific key to be set. -/
def check_api_key (env : Env) : Bool :=
  let provider := lowerAscii ((env.vars ("LLM_PROVIDER")).getD ("openai"))
  if provider = "openrouter" then envTruthy env ("OPENROUTER_API_KEY")
  else envTruthy env ("OPENAI_API_KEY")

/-- The environment-variable name whose value `check_api_key` requires. -/
def requiredApiKeyVar (env : Env) : String :=
  if lowerAscii ((env.vars ("LLM_PROVIDER")).getD ("openai")) = "openrouter"
  then "OPENROUTER_API_KEY" else "OPENAI_API_KEY"

/-- Python truthiness of a JSON-shaped value (`if data:`). -/
def pyTruthy : Json → Bool
  | .null => false
  | .bool b => b
  | .num n => n ≠ 0
  | .str s => s ≠ ""
  | .arr xs => !xs.isEmpty
  | .obj fs => !fs.isEmpty

/-- Observable trace of one `run_generation` call: how many times the
generation callable ran, the `(data, output_format)` argument pairs passed to
the persistence callable, in order, and the returned status. -/
structure RunTrace where
  generateCalls : Nat
  saveCalls : List (Json × String)
  success : Bool

/-- Embedding of `run_generation`.  The generation callable is modelled by the
value it would return (`genResult`); the trace records the calls the
orchestrator makes: no API key → return False before generating; falsy result
→ no save calls, return False; truthy result → save markdown then json with
the same object, return True. -/
def run_generation (env : Env) (genResult : Json) : RunTrace :=
  if check_api_key env = false then ⟨0, [], false⟩
  else if pyTruthy genResult then
    ⟨1, [(genResult, "markdown"), (genResult, "json")], true⟩
  else ⟨1, [], false⟩

/-! ### `save_output` (src/generators/utils.py) -/

/-- The wall-clock instant `datetime.now()` returns, an external
collaborator passed explicitly. -/
structure DateTime where
  year : Nat
  month : Nat
  day : Nat
  hour : Nat
  minute : Nat
  second : Nat

def pad2 (n : Nat) : String := if n < 10 then "0" ++ toString n else toString n

def pad4 (n : Nat) : String :=
  if n < 10 then "000" ++ toString n
  else if n < 100 then "00" ++ toString n
  else if n < 1000 then "0" ++ toString n
  else toString n

/-- Python `datetime.now().strftime("%Y%m%d_%H%M%S")`. -/
def strftimeStamp (t : DateTime) : String :=
  pad4 t.year ++ pad2 t.month ++ pad2 t.day ++ "_" ++
    pad2 t.hour ++ pad2 t.minute ++ pad2 t.second

/-- What `save_output` writes: the JSON branch dumps the whole result with
`json.dump(data, f, indent=2, ensure_ascii=False)`; the markdown branch hands
the open file to the generator-supplied formatter. -/
inductive WriteContent where
  | jsonDump (data : Json)
  | markdown (text : String)

structure SavedFile where
  filename : String
  content : WriteContent

/-- Embedding of `save_output`: name the file
`prefix_YYYYMMDD_HHMMSS.(json|md)` from the save-time clock and the
output-format selector, write the artifact, and return the filename. -/
def save_output (now : DateTime) (data : Json) (pfx : String)
    (format_markdown : Json → String) (output_format : String := "markdown") :
    SavedFile :=
  let timestamp := strftimeStamp now
  if output_format = "json" then
    ⟨pfx ++ "_" ++ timestamp ++ ".json", .jsonDump data⟩
  else
    ⟨pfx ++ "_" ++ timestamp ++ ".md", .markdown (format_markdown data)⟩

/-- Modelled from the spec: the artifact-name pattern the spec states,
`(prefix)_(YYYYMMDDHHMMSS).(ext)`, whose timestamp component is fourteen
digits with no separator inside it.  Compared below against the name
`save_output` actually builds. -/
def specClaimStamp (t : DateTime) : String :=
  pad4 t.year ++ pad2 t.month ++ pad2 t.day ++
    pad2 t.hour ++ pad2 t.minute ++ pad2 t.second

def headNotDigit : List Char → Bool
  | [] => true
  | c :: _ => !isDigitChar c

inductive WfJson : Json → Prop where
  | null : WfJson .null
  | bool (b : Bool) : WfJson (.bool b)
  | num (n : Int) : WfJson (.num n)
  | str (s : String) : WfJson (.str s)
  | arr (es : List Json) (h : ∀ e ∈ es, WfJson e) : WfJson (.arr es)
  | obj (fs : List (String × Json)) (hkeys : (fs.map Prod.fst).Nodup)
      (h : ∀ kv ∈ fs, WfJson kv.2) : WfJson (.obj fs)

mutual

def jsize : Json → Nat
  | .null => 1
  | .bool _ => 1
  | .num _ => 1
  | .str _ => 1
  | .arr es => 1 + lsize es
  | .obj fs => 1 + fsize fs

def lsize : List Json → Nat
  | [] => 1
  | e :: r => 1 + max (jsize e) (lsize r)

def fsize : List (String × Json) → Nat
  | [] => 1
  | (_, v) :: r => 1 + max (jsize v) (fsize r)

end

/-! ### Claims C6 to C10 -/

def envEmpty : Env := ⟨fun _ => none⟩

def envOpenAI : Env := ⟨fun k => if k = "OPENAI_API_KEY" then some ("sk-test") else none⟩

/-- C6: if the API key selected by the provider configuration (defaulting to
the `openai` provider when `LLM_PROVIDER` is unset) is absent, `run_generation`
fails immediately: the generation callable is never invoked and nothing is
persisted. -/
theorem c6_missing_key_no_generation (env : Env) (genResult : Json)
    (habsent : envTruthy env (requiredApiKeyVar env) = false) :
    (run_generation env genResult).success = false ∧
    (run_generation env genResult).generateCalls = 0 ∧
    (run_generation env genResult).saveCalls = [] := by
  have hchk : check_api_key env = false := by
    unfold check_api_key
    unfold requiredApiKeyVar at habsent
    by_cases hp : lowerAscii ((env.vars ("LLM_PROVIDER")).getD ("openai")) = "openrouter" <;>
      simp [hp] at habsent ⊢ <;> exact habsent
  simp [run_generation, hchk]

theorem c6_missing_key_no_generation_witness :
    envTruthy envEmpty (requiredApiKeyVar envEmpty) = false ∧
    ((run_generation envEmpty (Json.arr [Json.obj []])).success = false ∧
     (run_generation envEmpty (Json.arr [Json.obj []])).generateCalls = 0 ∧
     (run_generation envEmpty (Json.arr [Json.obj []])).saveCalls = []) :=
  ⟨by decide, c6_missing_key_no_generation envEmpty (Json.arr [Json.obj []]) (by decide)⟩

/-- C7: when the generation callable returns a falsy value, `run_generation`
reports failure and never invokes the persistence callable. -/
theorem c7_falsy_result_no_save (env : Env) (genResult : Json)
    (hkey : check_api_key env = true) (hfalsy : pyTruthy genResult = false) :
    (run_generation env genResult).success = false ∧
    (run_generation env genResult).saveCalls = [] := by
  simp [run_generation, hkey, hfalsy]

theorem c7_falsy_result_no_save_witness :
    check_api_key envOpenAI = true ∧ pyTruthy Json.null = false ∧
    ((run_generation envOpenAI Json.null).success = false ∧
     (run_generation envOpenAI Json.null).saveCalls = []) :=
  ⟨by decide, by decide, c7_falsy_result_no_save envOpenAI Json.null (by decide) (by decide)⟩

/-- C8: when the generation callable returns a truthy result, `run_generation`
invokes the persistence callable exactly twice — markdown first, then json —
both times with the identical result object, and reports success. -/
theorem c8_success_saves_twice (env : Env) (genResult : Json)
    (hkey : check_api_key env = true) (htruthy : pyTruthy genResult = true) :
    (run_generation env genResult).saveCalls =
      [(genResult, "markdown"), (genResult, "json")] ∧
    (run_generation env genResult).saveCalls.length = 2 ∧
    (run_generation env genResult).success = true := by
  simp [run_generation, hkey, htruthy]

theorem c8_success_saves_twice_witness :
    check_api_key envOpenAI = true ∧
    pyTruthy (Json.obj [("model_used", Json.str ("m"))]) = true ∧
    ((run_generation envOpenAI (Json.obj [("model_used", Json.str ("m"))])).saveCalls =
      [(Json.obj [("model_used", Json.str ("m"))], "markdown"),
       (Json.obj [("model_used", Json.str ("m"))], "json")] ∧
     (run_generation envOpenAI (Json.obj [("model_used", Json.str ("m"))])).saveCalls.length = 2 ∧
     (run_generation envOpenAI (Json.obj [("model_used", Json.str ("m"))])).success = true) :=
  ⟨by decide, by decide,
   c8_success_saves_twice envOpenAI (Json.obj [("model_used", Json.str ("m"))])
     (by decide) (by decide)⟩

/-- C9 (amended): every `save_output` call writes
`(prefix)_(YYYYMMDD)_(HHMMSS).(ext)` — the timestamp comes from the save-time
clock, with an underscore between date and time, and the extension is `.json`
exactly when the selector is `"json"`, `.md` otherwise.  The right-hand side
does not mention `data`, so the name never depends on the result's
`generated_at`. -/
theorem c9_save_output_filename (now : DateTime) (data : Json) (pfx : String)
    (format_markdown : Json → String) (output_format : String) :
    (save_output now data pfx format_markdown output_format).filename =
      pfx ++ "_" ++ strftimeStamp now ++
        (if output_format = "json" then ".json" else ".md") := by
  by_cases h : output_format = "json" <;> simp [save_output, h]

/-- C9 counterexample to the claim as stated: the actual filename has an
underscore inside the timestamp, so it is not
`(prefix)_(YYYYMMDDHHMMSS).(ext)`. -/
theorem c9_claim_pattern_refuted :
    (save_output ⟨2025, 1, 2, 3, 4, 5⟩ Json.null ("p") (fun _ => "") ("markdown")).filename =
      "p_20250102_030405.md" ∧
    (save_output ⟨2025, 1, 2, 3, 4, 5⟩ Json.null ("p") (fun _ => "") ("markdown")).filename ≠
      "p" ++ "_" ++ specClaimStamp ⟨2025, 1, 2, 3, 4, 5⟩ ++ ".md" := by
  constructor
  · rfl
  · decide

/-- C10: on `'(("items": null))'` the success branch returns the candidate
key's value without a type check, so the call yields Python's
`(None, None)` — an items component that is `null` (not a list) together with
no error. -/
theorem c10_null_payload_none_none :
    parse_llm_json_response ("\x7b\"items\": null\x7d") = (Json.null, none) ∧
    Json.null.isArr = false :=
  ⟨rfl, rfl⟩

/-! ### Claims C2, C5, C4 -/

theorem firstKeyHit_append (ks1 ks2 : List String) (k : String)
    (m : List (String × Json)) (v : Json)
    (hmiss : ∀ k' ∈ ks1, lookupField m k' = none)
    (hhit : lookupField m k = some v) :
    firstKeyHit (ks1 ++ k :: ks2) m = some v := by
  induction ks1 with
  | nil => simp [firstKeyHit, hhit]
  | cons a t ih =>
    have ha := hmiss a (by simp)
    simp only [List.cons_append, firstKeyHit, ha]
    exact ih fun k' hk' => hmiss k' (by simp [hk'])

theorem firstKeyHit_none (ks : List String) (m : List (String × Json))
    (hmiss : ∀ k ∈ ks, lookupField m k = none) :
    firstKeyHit ks m = none := by
  induction ks with
  | nil => rfl
  | cons a t ih =>
    have ha := hmiss a (by simp)
    simp only [firstKeyHit, ha]
    exact ih fun k hk => hmiss k (by simp [hk])

theorem firstListValue_none (m : List (String × Json))
    (hnolist : ∀ kv ∈ m, kv.2.isArr = false) :
    firstListValue m = none := by
  induction m with
  | nil => rfl
  | cons kv t ih =>
    obtain ⟨k0, v0⟩ := kv
    have h0 := hnolist (k0, v0) (by simp)
    simp only [firstListValue] at *
    simp [h0]
    exact ih fun kv hkv => hnolist kv (by simp [hkv])

/-- C2: when the cleaned content parses to a mapping, the candidate keys are
scanned in the caller-supplied order and the first key present wins; keys
earlier in `possible_keys` take priority even if later ones are also
present. -/
theorem c2_key_priority (content : String) (ks1 ks2 : List String) (k : String)
    (m : List (String × Json)) (v : Json)
    (hload : loadsChars (cleanChars content.data) = .ok (.obj m))
    (hmiss : ∀ k' ∈ ks1, lookupField m k' = none)
    (hhit : lookupField m k = some v) :
    parse_llm_json_response content (some (ks1 ++ k :: ks2)) = (v, none) := by
  simp [parse_llm_json_response, hload, firstKeyHit_append ks1 ks2 k m v hmiss hhit]

theorem c2_key_priority_witness :
    loadsChars (cleanChars ("\x7b\"data\": [1], \"items\": [2]\x7d").data) =
      .ok (.obj [("data", .arr [.num 1]), ("items", .arr [.num 2])]) ∧
    parse_llm_json_response ("\x7b\"data\": [1], \"items\": [2]\x7d")
      (some (["profiles"] ++ "items" :: ["data"])) = (.arr [.num 2], none) :=
  ⟨rfl,
   c2_key_priority ("\x7b\"data\": [1], \"items\": [2]\x7d") ["profiles"] ["data"] "items"
     [("data", .arr [.num 1]), ("items", .arr [.num 2])] (.arr [.num 2])
     rfl
     (by intro k' hk'; rw [List.mem_singleton] at hk'; subst hk'; rfl)
     rfl⟩

/-- C5: a parsed mapping with none of the candidate keys and no list-valued
field is wrapped as the single element of a one-element list. -/
theorem c5_single_object_wrap (content : String) (ks : List String)
    (m : List (String × Json))
    (hload : loadsChars (cleanChars content.data) = .ok (.obj m))
    (hmiss : ∀ k ∈ ks, lookupField m k = none)
    (hnolist : ∀ kv ∈ m, kv.2.isArr = false) :
    parse_llm_json_response content (some ks) = (.arr [.obj m], none) := by
  simp [parse_llm_json_response, hload, firstKeyHit_none ks m hmiss,
    firstListValue_none m hnolist]

theorem c5_single_object_wrap_witness :
    loadsChars (cleanChars ("\x7b\"a\": 1\x7d").data) = .ok (.obj [("a", .num 1)]) ∧
    parse_llm_json_response ("\x7b\"a\": 1\x7d") (some ["items"]) =
      (.arr [.obj [("a", .num 1)]], none) :=
  ⟨rfl,
   c5_single_object_wrap ("\x7b\"a\": 1\x7d") ["items"] [("a", .num 1)]
     rfl
     (by intro k hk; rw [List.mem_singleton] at hk; subst hk; rfl)
     (by intro kv hkv; rw [List.mem_singleton] at hkv; subst hkv; rfl)⟩

/-- C4 (amended to string inputs): whenever strict JSON parsing of the cleaned
content fails, `parse_llm_json_response` returns no items and an error string
carrying the parser's message plus a preview that is the first at-most-500
characters of the cleaned content, or the literal `(empty)` marker when the
cleaned content is empty. -/
theorem c4_parse_failure_error (content : String) (pk : Option (List String))
    (e : String)
    (hfail : loadsChars (cleanChars content.data) = .error e) :
    parse_llm_json_response content pk =
      (Json.null, some ("JSON parse error: " ++ e ++ "\nPreview: " ++
        (⟨previewChars (cleanChars content.data)⟩ : String) ++ "...")) ∧
    previewChars (cleanChars content.data) =
      (if cleanChars content.data = [] then "(empty)".data
       else (cleanChars content.data).take 500) ∧
    (cleanChars content.data ≠ [] →
      (previewChars (cleanChars content.data)).length ≤ 500) := by
  refine ⟨by simp [parse_llm_json_response, hfail], rfl, ?_⟩
  intro hne
  simp [previewChars, hne]

theorem c4_parse_failure_error_witness :
    loadsChars (cleanChars ("").data) = .error ("Expecting value") ∧
    parse_llm_json_response ("") none =
      (Json.null, some ("JSON parse error: Expecting value\nPreview: (empty)...")) :=
  ⟨rfl, ((c4_parse_failure_error ("") none ("Expecting value") rfl).1)⟩

/-- C4 counterexample to the claim as stated: with Python `None` as input the
function does not return a failure pair at all — `content.strip()` inside
`clean_json_response` raises `AttributeError`, which is not caught. -/
theorem c4_none_input_raises :
    parse_llm_json_response_py none none = .error PyExc.attributeError := rfl


/-! ### Claim C1: serializer/parser round trip.  Char facts first. -/

theorem toNat_ofNat_of_valid {n : Nat} (h : n < 55296 ∨ (57343 < n ∧ n < 1114112)) :
    (Char.ofNat n).toNat = n := by
  rw [Char.ofNat, dif_pos h]
  rfl

theorem toNat_ofNat_of_lt {n : Nat} (h : n < 55296) : (Char.ofNat n).toNat = n :=
  toNat_ofNat_of_valid (Or.inl h)

theorem char_valid_toNat (c : Char) :
    c.toNat < 55296 ∨ (57343 < c.toNat ∧ c.toNat < 1114112) := by
  rcases c.valid with h | ⟨h1, h2⟩
  · exact Or.inl h
  · exact Or.inr ⟨h1, h2⟩

theorem digitChar_toNat {d : Nat} (h : d < 10) : (digitChar d).toNat = 48 + d :=
  toNat_ofNat_of_lt (by omega)

theorem hexDigitChar_toNat {d : Nat} (h : d < 16) :
    (hexDigitChar d).toNat = if d < 10 then 48 + d else 87 + d := by
  unfold hexDigitChar
  by_cases hd : d < 10 <;> simp [hd] <;> exact toNat_ofNat_of_lt (by omega)

theorem decodeHexDigit_hexDigitChar {d : Nat} (h : d < 16) :
    decodeHexDigit (hexDigitChar d) = some d := by
  unfold decodeHexDigit
  rw [hexDigitChar_toNat h]
  by_cases hd : d < 10
  · rw [if_pos hd, if_pos (by omega)]
    congr 1
    omega
  · rw [if_neg hd, if_neg (by omega), if_pos (by omega)]
    congr 1
    omega

theorem hex4_roundtrip {n : Nat} (h : n < 65536) :
    decodeHex4 (hexDigitChar (n / 4096 % 16)) (hexDigitChar (n / 256 % 16))
      (hexDigitChar (n / 16 % 16)) (hexDigitChar (n % 16)) = some n := by
  unfold decodeHex4
  rw [decodeHexDigit_hexDigitChar (by omega), decodeHexDigit_hexDigitChar (by omega),
    decodeHexDigit_hexDigitChar (by omega), decodeHexDigit_hexDigitChar (by omega)]
  show some ((((n / 4096 % 16) * 16 + n / 256 % 16) * 16 + n / 16 % 16) * 16 + n % 16) =
    some n
  congr 1
  omega

/-! Decimal digits. -/


theorem natDigitsAux_congr : ∀ (n f1 f2 : Nat), n < f1 → n < f2 →
    natDigitsAux f1 n = natDigitsAux f2 n := by
  intro n
  induction n using Nat.strong_induction_on with
  | _ n ih =>
    intro f1 f2 h1 h2
    match f1, f2 with
    | g1 + 1, g2 + 1 =>
      by_cases hn : n < 10
      · simp [natDigitsAux, hn]
      · simp only [natDigitsAux, if_neg hn]
        rw [ih (n / 10) (by omega) g1 g2 (by omega) (by omega)]

theorem natDigits_of_lt {n : Nat} (h : n < 10) : natDigits n = [digitChar n] := by
  simp [natDigits, natDigitsAux, h]

theorem natDigits_of_ge {n : Nat} (h : 10 ≤ n) :
    natDigits n = natDigits (n / 10) ++ [digitChar (n % 10)] := by
  unfold natDigits
  conv_lhs => rw [natDigitsAux]
  rw [if_neg (by omega)]
  rw [natDigitsAux_congr (n / 10) n (n / 10 + 1) (by omega) (by omega)]

theorem natDigits_ne_nil (n : Nat) : natDigits n ≠ [] := by
  by_cases h : n < 10
  · rw [natDigits_of_lt h]
    simp
  · rw [natDigits_of_ge (by omega)]
    simp

theorem natDigits_all_digits (n : Nat) : ∀ c ∈ natDigits n, isDigitChar c = true := by
  induction n using Nat.strong_induction_on with
  | _ n ih =>
    by_cases h : n < 10
    · rw [natDigits_of_lt h]
      intro c hc
      rw [List.mem_singleton] at hc
      subst hc
      simp [isDigitChar, digitChar_toNat h]
      omega
    · rw [natDigits_of_ge (by omega)]
      intro c hc
      rw [List.mem_append] at hc
      rcases hc with hc | hc
      · exact ih (n / 10) (by omega) c hc
      · rw [List.mem_singleton] at hc
        subst hc
        simp [isDigitChar, digitChar_toNat (Nat.mod_lt n (by omega))]
        omega

theorem natDigits_head_ne_zero {n : Nat} (hn : n ≠ 0) :
    ∀ c t, natDigits n = c :: t → ¬(c = '0') := by
  induction n using Nat.strong_induction_on with
  | _ n ih =>
    intro c t hct hc
    subst hc
    by_cases h : n < 10
    · rw [natDigits_of_lt h] at hct
      have : digitChar n = '0' := (List.cons.inj hct).1
      have h2 : (digitChar n).toNat = 48 := by rw [this]; rfl
      rw [digitChar_toNat h] at h2
      omega
    · rw [natDigits_of_ge (by omega)] at hct
      obtain ⟨c', t', he⟩ := List.exists_cons_of_ne_nil (natDigits_ne_nil (n / 10))
      rw [he] at hct
      simp only [List.cons_append] at hct
      have hc' : c' = '0' := (List.cons.inj hct).1
      exact ih (n / 10) (by omega) (by omega) c' t' he (by rw [hc'])

theorem natFromDigits_append_one (ds : List Char) (c : Char) :
    natFromDigits (ds ++ [c]) = natFromDigits ds * 10 + (c.toNat - 48) := by
  simp [natFromDigits, List.foldl_append]

theorem natFromDigits_natDigits (n : Nat) : natFromDigits (natDigits n) = n := by
  induction n using Nat.strong_induction_on with
  | _ n ih =>
    by_cases h : n < 10
    · rw [natDigits_of_lt h]
      simp [natFromDigits, digitChar_toNat h]
    · rw [natDigits_of_ge (by omega), natFromDigits_append_one,
        ih (n / 10) (by omega), digitChar_toNat (Nat.mod_lt n (by omega))]
      omega

theorem spanDigits_append (ds rest : List Char)
    (hds : ∀ c ∈ ds, isDigitChar c = true) (hrest : headNotDigit rest = true) :
    spanDigits (ds ++ rest) = (ds, rest) := by
  induction ds with
  | nil =>
    cases rest with
    | nil => rfl
    | cons c t =>
      simp only [headNotDigit, Bool.not_eq_true'] at hrest
      simp [spanDigits, hrest]
  | cons c t ih =>
    have hc := hds c (by simp)
    simp only [List.cons_append, spanDigits, hc, if_pos, List.append_eq]
    rw [ih fun c' hc' => hds c' (by simp [hc'])]

theorem parseIntBody_natDigits (n : Nat) (rest : List Char)
    (hrest : headNotDigit rest = true) :
    parseIntBody (natDigits n ++ rest) = some (n, rest) := by
  by_cases h0 : n = 0
  · subst h0
    rw [natDigits_of_lt (by omega)]
    have : digitChar 0 = '0' := rfl
    rw [this]
    rfl
  · obtain ⟨c, t, he⟩ := List.exists_cons_of_ne_nil (natDigits_ne_nil n)
    have hcz : ¬(c = '0') := natDigits_head_ne_zero h0 c t he
    have hcd : isDigitChar c = true := natDigits_all_digits n c (by rw [he]; simp)
    rw [he]
    simp only [List.cons_append, parseIntBody, if_neg hcz, hcd, if_pos]
    rw [spanDigits_append t rest
      (fun c' hc' => natDigits_all_digits n c' (by rw [he]; simp [hc'])) hrest]
    simp only [Option.some.injEq, Prod.mk.injEq]
    constructor
    · rw [← natFromDigits_natDigits n, he]
    · trivial

/-! String escaping round trip. -/

theorem char_eq_of_toNat {a b : Char} (h : a.toNat = b.toNat) : a = b :=
  Char.ext (UInt32.ext h)

theorem psb_quote (fuel : Nat) (rest : List Char) :
    parseStringBody (fuel + 1) ('"' :: rest) = .ok ([], rest) := by
  rw [parseStringBody.eq_def]
  dsimp only []
  rw [if_pos rfl]

theorem psb_plain {fuel : Nat} {c : Char} {rest cs r : List Char}
    (h1 : ¬c = '"') (h2 : ¬c = '\\') (h3 : ¬c.toNat < 32)
    (hr : parseStringBody fuel rest = .ok (cs, r)) :
    parseStringBody (fuel + 1) (c :: rest) = .ok (c :: cs, r) := by
  rw [parseStringBody.eq_def]
  dsimp only []
  rw [if_neg h1, if_neg h2, if_neg h3, hr]

theorem psb_simple {fuel : Nat} {e ch : Char} {rest cs r : List Char}
    (he : ¬e = 'u') (hd : decodeSimpleEscape e = some ch)
    (hr : parseStringBody fuel rest = .ok (cs, r)) :
    parseStringBody (fuel + 1) ('\\' :: e :: rest) = .ok (ch :: cs, r) := by
  rw [parseStringBody.eq_def]
  dsimp only []
  rw [if_neg (by decide), if_pos rfl, if_neg he, hd, hr]

theorem psb_unicode {fuel : Nat} {a b c2 d : Char} {n : Nat} {rest cs r : List Char}
    (hdec : decodeHex4 a b c2 d = some n)
    (hnohi : ¬(55296 ≤ n ∧ n ≤ 56319)) (hnolo : ¬(56320 ≤ n ∧ n ≤ 57343))
    (hr : parseStringBody fuel rest = .ok (cs, r)) :
    parseStringBody (fuel + 1) ('\\' :: 'u' :: a :: b :: c2 :: d :: rest) =
      .ok (Char.ofNat n :: cs, r) := by
  rw [parseStringBody.eq_def]
  dsimp only []
  rw [if_neg (by decide), if_pos rfl, if_pos rfl, hdec]
  dsimp only []
  rw [if_neg hnohi, if_neg hnolo, hr]

theorem psb_surrogate {fuel : Nat} {a b c2 d a2 b2 c3 d2 : Char} {n m : Nat}
    {rest cs r : List Char}
    (hdec1 : decodeHex4 a b c2 d = some n) (hhi : 55296 ≤ n ∧ n ≤ 56319)
    (hdec2 : decodeHex4 a2 b2 c3 d2 = some m) (hlo : 56320 ≤ m ∧ m ≤ 57343)
    (hr : parseStringBody fuel rest = .ok (cs, r)) :
    parseStringBody (fuel + 1) ('\\' :: 'u' :: a :: b :: c2 :: d ::
        '\\' :: 'u' :: a2 :: b2 :: c3 :: d2 :: rest) =
      .ok (Char.ofNat (65536 + (n - 55296) * 1024 + (m - 56320)) :: cs, r) := by
  rw [parseStringBody.eq_def]
  dsimp only []
  rw [if_neg (by decide), if_pos rfl, if_pos rfl, hdec1]
  dsimp only []
  rw [if_pos hhi, if_pos (show ('\\' : Char) = '\\' ∧ ('u' : Char) = 'u' by exact ⟨rfl, rfl⟩),
    hdec2]
  dsimp only []
  rw [if_pos hlo, hr]

theorem hex4_cons (n : Nat) : hex4 n =
    hexDigitChar (n / 4096 % 16) :: hexDigitChar (n / 256 % 16) ::
    hexDigitChar (n / 16 % 16) :: hexDigitChar (n % 16) :: [] := rfl

theorem parseStringBody_escape : ∀ (cs rest : List Char) (fuel : Nat),
    cs.length < fuel →
    parseStringBody fuel (escapeString cs ++ '"' :: rest) = .ok (cs, rest) := by
  intro cs
  induction cs with
  | nil =>
    intro rest fuel hfuel
    obtain ⟨g, rfl⟩ : ∃ g, fuel = g + 1 := ⟨fuel - 1, by omega⟩
    exact psb_quote g rest
  | cons c cs ih =>
    intro rest fuel hfuel
    obtain ⟨g, rfl⟩ : ∃ g, fuel = g + 1 := ⟨fuel - 1, by omega⟩
    have ihg := ih rest g (by simp at hfuel; omega)
    show parseStringBody (g + 1) ((escapeChar c ++ escapeString cs) ++ '"' :: rest) = _
    rw [List.append_assoc]
    by_cases h1 : c = '"'
    · subst h1
      exact psb_simple (by decide) rfl ihg
    · by_cases h2 : c = '\\'
      · subst h2
        exact psb_simple (by decide) rfl ihg
      · by_cases h3 : c = '\n'
        · subst h3
          exact psb_simple (by decide) rfl ihg
        · by_cases h4 : c = '\r'
          · subst h4
            exact psb_simple (by decide) rfl ihg
          · by_cases h5 : c = '\t'
            · subst h5
              exact psb_simple (by decide) rfl ihg
            · by_cases h6 : c.toNat = 8
              · obtain rfl : c = '\x08' := char_eq_of_toNat (by rw [h6]; rfl)
                exact psb_simple (by decide) rfl ihg
              · by_cases h7 : c.toNat = 12
                · obtain rfl : c = '\x0c' := char_eq_of_toNat (by rw [h7]; rfl)
                  exact psb_simple (by decide) rfl ihg
                · by_cases h8 : 32 ≤ c.toNat ∧ c.toNat ≤ 126
                  · have he : escapeChar c = [c] := by
                      unfold escapeChar
                      rw [if_neg h1, if_neg h2, if_neg h3, if_neg h4, if_neg h5,
                        if_neg h6, if_neg h7, if_pos h8]
                    rw [he, List.cons_append, List.nil_append]
                    exact psb_plain h1 h2 (by omega) ihg
                  · have hval := char_valid_toNat c
                    by_cases h9 : c.toNat < 65536
                    · have he : escapeChar c = '\\' :: 'u' :: hex4 c.toNat := by
                        unfold escapeChar
                        rw [if_neg h1, if_neg h2, if_neg h3, if_neg h4, if_neg h5,
                          if_neg h6, if_neg h7, if_neg h8, if_pos h9]
                      rw [he, hex4_cons]
                      simp only [List.cons_append, List.nil_append]
                      have hd4 : decodeHex4 (hexDigitChar (c.toNat / 4096 % 16))
                          (hexDigitChar (c.toNat / 256 % 16))
                          (hexDigitChar (c.toNat / 16 % 16))
                          (hexDigitChar (c.toNat % 16)) = some c.toNat :=
                        hex4_roundtrip h9
                      have hstep := psb_unicode hd4 (by omega) (by omega) ihg
                      rw [hstep, Char.ofNat_toNat]
                    · have he : escapeChar c =
                          ('\\' :: 'u' :: hex4 (55296 + (c.toNat - 65536) / 1024)) ++
                          ('\\' :: 'u' :: hex4 (56320 + (c.toNat - 65536) % 1024)) := by
                        unfold escapeChar
                        rw [if_neg h1, if_neg h2, if_neg h3, if_neg h4, if_neg h5,
                          if_neg h6, if_neg h7, if_neg h8, if_neg h9]
                      rw [he, hex4_cons, hex4_cons]
                      simp only [List.cons_append, List.nil_append, List.append_assoc]
                      have hd4a : decodeHex4
                          (hexDigitChar ((55296 + (c.toNat - 65536) / 1024) / 4096 % 16))
                          (hexDigitChar ((55296 + (c.toNat - 65536) / 1024) / 256 % 16))
                          (hexDigitChar ((55296 + (c.toNat - 65536) / 1024) / 16 % 16))
                          (hexDigitChar ((55296 + (c.toNat - 65536) / 1024) % 16)) =
                          some (55296 + (c.toNat - 65536) / 1024) :=
                        hex4_roundtrip (by omega)
                      have hd4b : decodeHex4
                          (hexDigitChar ((56320 + (c.toNat - 65536) % 1024) / 4096 % 16))
                          (hexDigitChar ((56320 + (c.toNat - 65536) % 1024) / 256 % 16))
                          (hexDigitChar ((56320 + (c.toNat - 65536) % 1024) / 16 % 16))
                          (hexDigitChar ((56320 + (c.toNat - 65536) % 1024) % 16)) =
                          some (56320 + (c.toNat - 65536) % 1024) :=
                        hex4_roundtrip (by omega)
                      have hstep := psb_surrogate hd4a (by omega) hd4b (by omega) ihg
                      rw [hstep]
                      have harg : 65536 +
                          (55296 + (c.toNat - 65536) / 1024 - 55296) * 1024 +
                          (56320 + (c.toNat - 65536) % 1024 - 56320) = c.toNat := by
                        omega
                      rw [harg, Char.ofNat_toNat]

/-! Well-formed JSON values: the serializable ones (object keys distinct,
as Python dicts guarantee). -/


/-! Fuel measures: how much parser fuel a value needs. -/


theorem jsize_pos (v : Json) : 1 ≤ jsize v := by
  cases v <;> simp [jsize]

/-! Whitespace and head-character facts. -/

theorem skipWs_cons_not {c : Char} {l : List Char} (h : isJsonWs c = false) :
    skipWs (c :: l) = c :: l := by
  show List.dropWhile isJsonWs (c :: l) = c :: l
  rw [List.dropWhile_cons, if_neg (by simp [h])]

theorem skipWs_cons_space (l : List Char) : skipWs (' ' :: l) = skipWs l := by
  show List.dropWhile isJsonWs (' ' :: l) = List.dropWhile isJsonWs l
  rw [List.dropWhile_cons, if_pos (by decide)]

theorem escapeChar_length_pos (c : Char) : 1 ≤ (escapeChar c).length := by
  unfold escapeChar
  split
  · simp
  · split
    · simp
    · split
      · simp
      · split
        · simp
        · split
          · simp
          · split
            · simp
            · split
              · simp
              · split
                · simp
                · split
                  · simp [hex4]
                  · simp [hex4]

theorem escapeString_length (l : List Char) : l.length ≤ (escapeString l).length := by
  induction l with
  | nil => simp [escapeString]
  | cons c t ih =>
    have := escapeChar_length_pos c
    simp only [escapeString, List.length_cons, List.length_append]
    omega

/-- The first character a serialized value starts with is never whitespace or
a closing delimiter. -/
theorem dumps_cons (v : Json) : ∃ c t, dumpsChars v = c :: t ∧
    isJsonWs c = false ∧ ¬c = ']' ∧ ¬c = ',' ∧ ¬c = '}' := by
  cases v with
  | null => exact ⟨'n', _, rfl, by decide, by decide, by decide, by decide⟩
  | bool b =>
    cases b with
    | true => exact ⟨'t', _, rfl, by decide, by decide, by decide, by decide⟩
    | false => exact ⟨'f', _, rfl, by decide, by decide, by decide, by decide⟩
  | num i =>
    show ∃ c t, intChars i = c :: t ∧ _
    unfold intChars
    by_cases hi : i < 0
    · rw [if_pos hi]
      exact ⟨'-', _, rfl, by decide, by decide, by decide, by decide⟩
    · rw [if_neg hi]
      obtain ⟨c, t, he⟩ := List.exists_cons_of_ne_nil (natDigits_ne_nil i.toNat)
      have hcd : isDigitChar c = true := natDigits_all_digits _ c (by rw [he]; simp)
      simp only [isDigitChar, decide_eq_true_eq] at hcd
      refine ⟨c, t, he, ?_, ?_, ?_, ?_⟩
      · simp only [isJsonWs, decide_eq_false_iff_not]
        push_neg
        omega
      · intro h; rw [h] at hcd; simp at hcd
      · intro h; rw [h] at hcd; simp at hcd
      · intro h; rw [h] at hcd; simp at hcd
  | str s => exact ⟨'"', _, rfl, by decide, by decide, by decide, by decide⟩
  | arr es => exact ⟨'[', _, rfl, by decide, by decide, by decide, by decide⟩
  | obj fs => exact ⟨'{', _, rfl, by decide, by decide, by decide, by decide⟩

/-! Python dict insertion on distinct keys is plain append. -/

theorem dictInsert_append {m : List (String × Json)} {k : String} (v : Json)
    (h : k ∉ m.map Prod.fst) : dictInsert m k v = m ++ [(k, v)] := by
  induction m with
  | nil => rfl
  | cons kv t ih =>
    obtain ⟨k0, v0⟩ := kv
    simp only [List.map_cons, List.mem_cons] at h
    push_neg at h
    simp only [dictInsert, if_neg (Ne.symm h.1)]
    rw [ih h.2]
    rfl

theorem foldl_dictInsert_append : ∀ (fs acc : List (String × Json)),
    (∀ k ∈ fs.map Prod.fst, k ∉ acc.map Prod.fst) → (fs.map Prod.fst).Nodup →
    List.foldl (fun m kv => dictInsert m kv.1 kv.2) acc fs = acc ++ fs := by
  intro fs
  induction fs with
  | nil => intro acc _ _; simp
  | cons kv t ih =>
    intro acc hdisj hnodup
    obtain ⟨k, v⟩ := kv
    simp only [List.foldl_cons]
    rw [dictInsert_append v (hdisj k (by simp))]
    rw [ih (acc ++ [(k, v)]) ?_ ?_]
    · simp
    · intro k' hk'
      simp only [List.map_append, List.mem_append] at *
      push_neg
      constructor
      · exact hdisj k' (by simp [hk'])
      · simp only [List.map_cons, List.nodup_cons] at hnodup
        intro hc
        simp at hc
        rw [hc] at hk'
        exact hnodup.1 hk'
    · simp only [List.map_cons, List.nodup_cons] at hnodup
      exact hnodup.2

theorem pyDict_eq_self {fs : List (String × Json)} (h : (fs.map Prod.fst).Nodup) :
    pyDict fs = fs := by
  unfold pyDict
  rw [foldl_dictInsert_append fs [] (by simp) h]
  simp

/-! Step lemmas for the value parsers. -/

theorem pv_null (fuel : Nat) (r : List Char) :
    parseValue (fuel + 1) ('n' :: 'u' :: 'l' :: 'l' :: r) = .ok (.null, r) := by
  rw [parseValue.eq_def]
  dsimp only []
  rw [if_pos rfl, if_pos (by exact ⟨rfl, rfl, rfl⟩)]

theorem pv_true (fuel : Nat) (r : List Char) :
    parseValue (fuel + 1) ('t' :: 'r' :: 'u' :: 'e' :: r) = .ok (.bool true, r) := by
  rw [parseValue.eq_def]
  dsimp only []
  rw [if_neg (by decide), if_pos rfl, if_pos (by exact ⟨rfl, rfl, rfl⟩)]

theorem pv_false (fuel : Nat) (r : List Char) :
    parseValue (fuel + 1) ('f' :: 'a' :: 'l' :: 's' :: 'e' :: r) = .ok (.bool false, r) := by
  rw [parseValue.eq_def]
  dsimp only []
  rw [if_neg (by decide), if_neg (by decide), if_pos rfl,
    if_pos (by exact ⟨rfl, rfl, rfl, rfl⟩)]

theorem pv_str {rest cs r : List Char} (fuel : Nat)
    (hr : parseStringBody (rest.length + 1) rest = .ok (cs, r)) :
    parseValue (fuel + 1) ('"' :: rest) = .ok (.str ⟨cs⟩, r) := by
  rw [parseValue.eq_def]
  dsimp only []
  rw [if_neg (by decide), if_neg (by decide), if_neg (by decide), if_pos rfl, hr]

theorem pv_arr (fuel : Nat) (rest : List Char) :
    parseValue (fuel + 1) ('[' :: rest) = parseElems fuel (skipWs rest) := by
  rw [parseValue.eq_def]
  dsimp only []
  rw [if_neg (by decide), if_neg (by decide), if_neg (by decide), if_neg (by decide),
    if_pos rfl]

theorem pv_obj (fuel : Nat) (rest : List Char) :
    parseValue (fuel + 1) ('{' :: rest) = parseFields fuel (skipWs rest) := by
  rw [parseValue.eq_def]
  dsimp only []
  rw [if_neg (by decide), if_neg (by decide), if_neg (by decide), if_neg (by decide),
    if_neg (by decide), if_pos rfl]

theorem pv_neg {rest r : List Char} {n : Nat} (fuel : Nat)
    (hint : parseIntBody rest = some (n, r)) :
    parseValue (fuel + 1) ('-' :: rest) = .ok (.num (-(n : Int)), r) := by
  rw [parseValue.eq_def]
  dsimp only []
  rw [if_neg (by decide), if_neg (by decide), if_neg (by decide), if_neg (by decide),
    if_neg (by decide), if_neg (by decide), if_pos rfl, hint]

theorem pv_digit {c : Char} {rest r : List Char} {n : Nat} (fuel : Nat)
    (hc : isDigitChar c = true)
    (hint : parseIntBody (c :: rest) = some (n, r)) :
    parseValue (fuel + 1) (c :: rest) = .ok (.num (n : Int), r) := by
  have hcn : 48 ≤ c.toNat ∧ c.toNat ≤ 57 := by
    simpa [isDigitChar] using hc
  have hne : ∀ d : Char, d.toNat ∉ Set.Icc 48 57 → ¬c = d := by
    intro d hd h
    rw [h] at hcn
    exact hd ⟨hcn.1, hcn.2⟩
  rw [parseValue.eq_def]
  dsimp only []
  rw [if_neg (hne 'n' (by decide)), if_neg (hne 't' (by decide)),
    if_neg (hne 'f' (by decide)), if_neg (hne '"' (by decide)),
    if_neg (hne '[' (by decide)), if_neg (hne '{' (by decide)),
    if_neg (hne '-' (by decide)), if_pos hc, hint]

theorem pe_close (fuel : Nat) (r : List Char) :
    parseElems (fuel + 1) (']' :: r) = .ok (.arr [], r) := by
  rw [parseElems.eq_def]
  dsimp only []
  rw [if_pos rfl]

theorem pe_value {c : Char} {r r2 : List Char} {v : Json} (fuel : Nat)
    (hne : ¬c = ']') (hv : parseValue fuel (c :: r) = .ok (v, r2)) :
    parseElems (fuel + 1) (c :: r) = parseElemsRest fuel [v] (skipWs r2) := by
  rw [parseElems.eq_def]
  dsimp only []
  rw [if_neg hne, hv]

theorem per_close (fuel : Nat) (acc : List Json) (r : List Char) :
    parseElemsRest (fuel + 1) acc (']' :: r) = .ok (.arr acc, r) := by
  rw [parseElemsRest.eq_def]
  dsimp only []
  rw [if_pos rfl]

theorem per_comma {r r2 : List Char} {v : Json} (fuel : Nat) (acc : List Json)
    (hv : parseValue fuel (skipWs r) = .ok (v, r2)) :
    parseElemsRest (fuel + 1) acc (',' :: r) =
      parseElemsRest fuel (acc ++ [v]) (skipWs r2) := by
  rw [parseElemsRest.eq_def]
  dsimp only []
  rw [if_neg (by decide), if_pos rfl, hv]

theorem pf_close (fuel : Nat) (r : List Char) :
    parseFields (fuel + 1) ('}' :: r) = .ok (.obj [], r) := by
  rw [parseFields.eq_def]
  dsimp only []
  rw [if_pos rfl]

theorem pf_key {r r2 r3 r4 : List Char} {k : List Char} {v : Json} (fuel : Nat)
    (hk : parseStringBody (r.length + 1) r = .ok (k, r2))
    (hcolon : skipWs r2 = ':' :: r3)
    (hv : parseValue fuel (skipWs r3) = .ok (v, r4)) :
    parseFields (fuel + 1) ('"' :: r) = parseFieldsRest fuel [(⟨k⟩, v)] (skipWs r4) := by
  rw [parseFields.eq_def]
  dsimp only []
  rw [if_neg (by decide), if_pos rfl, hk]
  dsimp only []
  rw [hcolon]
  dsimp only []
  rw [if_pos rfl, hv]

theorem pfr_close (fuel : Nat) (acc : List (String × Json)) (r : List Char) :
    parseFieldsRest (fuel + 1) acc ('}' :: r) = .ok (.obj (pyDict acc), r) := by
  rw [parseFieldsRest.eq_def]
  dsimp only []
  rw [if_pos rfl]

theorem pfr_comma {r r2 r3 r4 r5 : List Char} {k : List Char} {v : Json} (fuel : Nat)
    (acc : List (String × Json))
    (hws : skipWs r = '"' :: r2)
    (hk : parseStringBody (r2.length + 1) r2 = .ok (k, r3))
    (hcolon : skipWs r3 = ':' :: r4)
    (hv : parseValue fuel (skipWs r4) = .ok (v, r5)) :
    parseFieldsRest (fuel + 1) acc (',' :: r) =
      parseFieldsRest fuel (acc ++ [(⟨k⟩, v)]) (skipWs r5) := by
  rw [parseFieldsRest.eq_def]
  dsimp only []
  rw [if_neg (by decide), if_pos rfl, hws]
  dsimp only []
  rw [if_pos rfl, hk]
  dsimp only []
  rw [hcolon]
  dsimp only []
  rw [if_pos rfl, hv]

/-- The serializer/parser round trip for numbers. -/
theorem pv_num (i : Int) (rest : List Char) (fuel : Nat)
    (hrest : headNotDigit rest = true) :
    parseValue (fuel + 1) (intChars i ++ rest) = .ok (.num i, rest) := by
  unfold intChars
  by_cases hi : i < 0
  · rw [if_pos hi, List.cons_append]
    rw [pv_neg fuel (parseIntBody_natDigits (-i).toNat rest hrest)]
    rw [show -(((-i).toNat : Int)) = i by omega]
  · rw [if_neg hi]
    obtain ⟨c, t, he⟩ := List.exists_cons_of_ne_nil (natDigits_ne_nil i.toNat)
    have hcd : isDigitChar c = true := natDigits_all_digits _ c (by rw [he]; simp)
    have hint : parseIntBody (c :: (t ++ rest)) = some (i.toNat, rest) := by
      have := parseIntBody_natDigits i.toNat rest hrest
      rw [he] at this
      simpa using this
    rw [he, List.cons_append]
    rw [pv_digit fuel hcd hint]
    rw [show ((i.toNat : Int)) = i by omega]

theorem headNotDigit_sepElems (r : List Json) (rest : List Char) :
    headNotDigit (dumpsSepElems r ++ ']' :: rest) = true := by
  cases r with
  | nil => rfl
  | cons a b => rfl

theorem skipWs_sepElems (r : List Json) (rest : List Char) :
    skipWs (dumpsSepElems r ++ ']' :: rest) = dumpsSepElems r ++ ']' :: rest := by
  cases r with
  | nil =>
    rw [show dumpsSepElems [] = [] from rfl, List.nil_append]
    exact skipWs_cons_not (by decide)
  | cons a b =>
    rw [show dumpsSepElems (a :: b) = ',' :: ' ' :: (dumpsChars a ++ dumpsSepElems b)
      from rfl, List.cons_append]
    exact skipWs_cons_not (by decide)

theorem headNotDigit_sepFields (r : List (String × Json)) (rest : List Char) :
    headNotDigit (dumpsSepFields r ++ '}' :: rest) = true := by
  cases r with
  | nil => rfl
  | cons a b =>
    obtain ⟨k, v⟩ := a
    rfl

theorem skipWs_sepFields (r : List (String × Json)) (rest : List Char) :
    skipWs (dumpsSepFields r ++ '}' :: rest) = dumpsSepFields r ++ '}' :: rest := by
  cases r with
  | nil =>
    rw [show dumpsSepFields [] = [] from rfl, List.nil_append]
    exact skipWs_cons_not (by decide)
  | cons a b =>
    obtain ⟨k, v⟩ := a
    rw [show dumpsSepFields ((k, v) :: b) = ',' :: ' ' :: '"' ::
      (escapeString k.data ++ '"' :: ':' :: ' ' :: (dumpsChars v ++ dumpsSepFields b))
      from rfl, List.cons_append]
    exact skipWs_cons_not (by decide)

mutual

/-- The round trip: parsing the serialization of a well-formed value, followed
by any non-digit-leading continuation, returns exactly that value. -/
theorem parseValue_dumps (v : Json) (hwf : WfJson v) (rest : List Char) (fuel : Nat)
    (hfuel : jsize v ≤ fuel) (hrest : headNotDigit rest = true) :
    parseValue fuel (dumpsChars v ++ rest) = .ok (v, rest) := by
  obtain ⟨g, rfl⟩ : ∃ g, fuel = g + 1 := ⟨fuel - 1, by have := jsize_pos v; omega⟩
  cases v with
  | null => exact pv_null g rest
  | bool b =>
    cases b with
    | true => exact pv_true g rest
    | false => exact pv_false g rest
  | num i => exact pv_num i rest g hrest
  | str s =>
    show parseValue (g + 1) (('"' :: (escapeString s.data ++ ['"'])) ++ rest) = _
    rw [List.cons_append, List.append_assoc]
    simp only [List.singleton_append]
    have hr : parseStringBody ((escapeString s.data ++ '"' :: rest).length + 1)
        (escapeString s.data ++ '"' :: rest) = .ok (s.data, rest) :=
      parseStringBody_escape s.data rest _ (by
        have := escapeString_length s.data
        simp only [List.length_append, List.length_cons]
        omega)
    rw [pv_str g hr]
  | arr es =>
    have hall : ∀ e ∈ es, WfJson e := by
      cases hwf with
      | arr _ h => exact h
    show parseValue (g + 1) (('[' :: (dumpsElems es ++ [']'])) ++ rest) = _
    rw [List.cons_append, List.append_assoc]
    simp only [List.singleton_append]
    rw [pv_arr g]
    cases es with
    | nil =>
      rw [show dumpsElems ([] : List Json) = [] from rfl, List.nil_append,
        skipWs_cons_not (by decide)]
      obtain ⟨g2, rfl⟩ : ∃ g2, g = g2 + 1 :=
        ⟨g - 1, by simp [jsize, lsize] at hfuel; omega⟩
      rw [pe_close g2 rest]
    | cons e r =>
      rw [show dumpsElems (e :: r) = dumpsChars e ++ dumpsSepElems r from rfl,
        List.append_assoc]
      obtain ⟨g2, rfl⟩ : ∃ g2, g = g2 + 1 :=
        ⟨g - 1, by simp [jsize, lsize] at hfuel; omega⟩
      have hfe : jsize e ≤ g2 := by simp [jsize, lsize] at hfuel; omega
      have hfr : lsize r ≤ g2 := by simp [jsize, lsize] at hfuel; omega
      have hv0 := parseValue_dumps e (hall e (by simp))
        (dumpsSepElems r ++ ']' :: rest) g2 hfe (headNotDigit_sepElems r rest)
      obtain ⟨c, t, he, hnws, hne1, _, _⟩ := dumps_cons e
      rw [he, List.cons_append] at hv0
      rw [he, List.cons_append, skipWs_cons_not hnws]
      rw [pe_value g2 hne1 hv0, skipWs_sepElems r rest]
      rw [parseElemsRest_dumps r (fun e' he' => hall e' (by simp [he'])) [e] rest g2 hfr]
      simp
  | obj fs =>
    have hall : ∀ kv ∈ fs, WfJson kv.2 := by
      cases hwf with
      | obj _ _ h => exact h
    have hkeys : (fs.map Prod.fst).Nodup := by
      cases hwf with
      | obj _ hk _ => exact hk
    show parseValue (g + 1) (('{' :: (dumpsFields fs ++ ['}'])) ++ rest) = _
    rw [List.cons_append, List.append_assoc]
    simp only [List.singleton_append]
    rw [pv_obj g]
    cases fs with
    | nil =>
      rw [show dumpsFields ([] : List (String × Json)) = [] from rfl, List.nil_append,
        skipWs_cons_not (by decide)]
      obtain ⟨g2, rfl⟩ : ∃ g2, g = g2 + 1 :=
        ⟨g - 1, by simp [jsize, fsize] at hfuel; omega⟩
      rw [pf_close g2 rest]
    | cons kv r =>
      obtain ⟨k, v⟩ := kv
      rw [show dumpsFields ((k, v) :: r) = '"' ::
        (escapeString k.data ++ '"' :: ':' :: ' ' :: (dumpsChars v ++ dumpsSepFields r))
        from rfl]
      simp only [List.cons_append, List.append_assoc]
      rw [skipWs_cons_not (by decide)]
      obtain ⟨g2, rfl⟩ : ∃ g2, g = g2 + 1 :=
        ⟨g - 1, by simp [jsize, fsize] at hfuel; omega⟩
      have hfv : jsize v ≤ g2 := by simp [jsize, fsize] at hfuel; omega
      have hfr : fsize r ≤ g2 := by simp [jsize, fsize] at hfuel; omega
      have hk : parseStringBody
          ((escapeString k.data ++ '"' :: ':' :: ' ' ::
            (dumpsChars v ++ (dumpsSepFields r ++ '}' :: rest))).length + 1)
          (escapeString k.data ++ '"' :: ':' :: ' ' ::
            (dumpsChars v ++ (dumpsSepFields r ++ '}' :: rest))) =
          .ok (k.data, ':' :: ' ' :: (dumpsChars v ++ (dumpsSepFields r ++ '}' :: rest))) :=
        parseStringBody_escape k.data _ _ (by
          have := escapeString_length k.data
          simp only [List.length_append, List.length_cons]
          omega)
      have hcolon : skipWs (':' :: ' ' ::
          (dumpsChars v ++ (dumpsSepFields r ++ '}' :: rest))) =
          ':' :: (' ' :: (dumpsChars v ++ (dumpsSepFields r ++ '}' :: rest))) :=
        skipWs_cons_not (by decide)
      have hv0 := parseValue_dumps v (hall (k, v) (by simp))
        (dumpsSepFields r ++ '}' :: rest) g2 hfv (headNotDigit_sepFields r rest)
      obtain ⟨c, t, he, hnws, _, _, _⟩ := dumps_cons v
      have hv : parseValue g2 (skipWs (' ' ::
          (dumpsChars v ++ (dumpsSepFields r ++ '}' :: rest)))) =
          .ok (v, dumpsSepFields r ++ '}' :: rest) := by
        rw [skipWs_cons_space, he, List.cons_append, skipWs_cons_not hnws,
          ← List.cons_append, ← he]
        exact hv0
      rw [pf_key g2 hk hcolon hv, skipWs_sepFields r rest]
      rw [parseFieldsRest_dumps r (fun kv' hkv' => hall kv' (by simp [hkv']))
        [(⟨k.data⟩, v)] rest g2 hfr]
      have heta : (⟨k.data⟩ : String) = k := rfl
      rw [heta]
      simp only [List.singleton_append]
      rw [pyDict_eq_self hkeys]

theorem parseElemsRest_dumps (es : List Json) (hall : ∀ e ∈ es, WfJson e)
    (acc : List Json) (rest : List Char) (fuel : Nat) (hfuel : lsize es ≤ fuel) :
    parseElemsRest fuel acc (dumpsSepElems es ++ ']' :: rest) =
      .ok (.arr (acc ++ es), rest) := by
  obtain ⟨g, rfl⟩ : ∃ g, fuel = g + 1 :=
    ⟨fuel - 1, by cases es <;> simp [lsize] at hfuel <;> omega⟩
  cases es with
  | nil =>
    rw [show dumpsSepElems [] = [] from rfl, List.nil_append, per_close g acc rest]
    simp
  | cons e r =>
    rw [show dumpsSepElems (e :: r) = ',' :: ' ' :: (dumpsChars e ++ dumpsSepElems r)
      from rfl]
    simp only [List.cons_append, List.append_assoc]
    have hfe : jsize e ≤ g := by simp [lsize] at hfuel; omega
    have hfr : lsize r ≤ g := by simp [lsize] at hfuel; omega
    have hv0 := parseValue_dumps e (hall e (by simp))
      (dumpsSepElems r ++ ']' :: rest) g hfe (headNotDigit_sepElems r rest)
    obtain ⟨c, t, he, hnws, _, _, _⟩ := dumps_cons e
    have hv : parseValue g (skipWs (' ' ::
        (dumpsChars e ++ (dumpsSepElems r ++ ']' :: rest)))) =
        .ok (e, dumpsSepElems r ++ ']' :: rest) := by
      rw [skipWs_cons_space, he, List.cons_append, skipWs_cons_not hnws,
        ← List.cons_append, ← he]
      exact hv0
    rw [per_comma g acc hv, skipWs_sepElems r rest]
    rw [parseElemsRest_dumps r (fun e' he' => hall e' (by simp [he'])) (acc ++ [e]) rest g hfr]
    simp

theorem parseFieldsRest_dumps (fs : List (String × Json)) (hall : ∀ kv ∈ fs, WfJson kv.2)
    (acc : List (String × Json)) (rest : List Char) (fuel : Nat)
    (hfuel : fsize fs ≤ fuel) :
    parseFieldsRest fuel acc (dumpsSepFields fs ++ '}' :: rest) =
      .ok (.obj (pyDict (acc ++ fs)), rest) := by
  obtain ⟨g, rfl⟩ : ∃ g, fuel = g + 1 :=
    ⟨fuel - 1, by
      cases fs with
      | nil => simp [fsize] at hfuel; omega
      | cons kv r => obtain ⟨k, v⟩ := kv; simp [fsize] at hfuel; omega⟩
  cases fs with
  | nil =>
    rw [show dumpsSepFields [] = [] from rfl, List.nil_append, pfr_close g acc rest]
    simp
  | cons kv r =>
    obtain ⟨k, v⟩ := kv
    rw [show dumpsSepFields ((k, v) :: r) = ',' :: ' ' :: '"' ::
      (escapeString k.data ++ '"' :: ':' :: ' ' :: (dumpsChars v ++ dumpsSepFields r))
      from rfl]
    simp only [List.cons_append, List.append_assoc]
    have hfv : jsize v ≤ g := by simp [fsize] at hfuel; omega
    have hfr : fsize r ≤ g := by simp [fsize] at hfuel; omega
    have hws : skipWs (' ' :: '"' ::
        (escapeString k.data ++ '"' :: ':' :: ' ' ::
          (dumpsChars v ++ (dumpsSepFields r ++ '}' :: rest)))) =
        '"' :: (escapeString k.data ++ '"' :: ':' :: ' ' ::
          (dumpsChars v ++ (dumpsSepFields r ++ '}' :: rest))) := by
      rw [skipWs_cons_space]
      exact skipWs_cons_not (by decide)
    have hk : parseStringBody
        ((escapeString k.data ++ '"' :: ':' :: ' ' ::
          (dumpsChars v ++ (dumpsSepFields r ++ '}' :: rest))).length + 1)
        (escapeString k.data ++ '"' :: ':' :: ' ' ::
          (dumpsChars v ++ (dumpsSepFields r ++ '}' :: rest))) =
        .ok (k.data, ':' :: ' ' :: (dumpsChars v ++ (dumpsSepFields r ++ '}' :: rest))) :=
      parseStringBody_escape k.data _ _ (by
        have := escapeString_length k.data
        simp only [List.length_append, List.length_cons]
        omega)
    have hcolon : skipWs (':' :: ' ' ::
        (dumpsChars v ++ (dumpsSepFields r ++ '}' :: rest))) =
        ':' :: (' ' :: (dumpsChars v ++ (dumpsSepFields r ++ '}' :: rest))) :=
      skipWs_cons_not (by decide)
    have hv0 := parseValue_dumps v (hall (k, v) (by simp))
      (dumpsSepFields r ++ '}' :: rest) g hfv (headNotDigit_sepFields r rest)
    obtain ⟨c, t, he, hnws, _, _, _⟩ := dumps_cons v
    have hv : parseValue g (skipWs (' ' ::
        (dumpsChars v ++ (dumpsSepFields r ++ '}' :: rest)))) =
        .ok (v, dumpsSepFields r ++ '}' :: rest) := by
      rw [skipWs_cons_space, he, List.cons_append, skipWs_cons_not hnws,
        ← List.cons_append, ← he]
      exact hv0
    rw [pfr_comma g acc hws hk hcolon hv, skipWs_sepFields r rest]
    have heta : (⟨k.data⟩ : String) = k := rfl
    rw [heta]
    rw [parseFieldsRest_dumps r (fun kv' hkv' => hall kv' (by simp [hkv']))
      (acc ++ [(k, v)]) rest g hfr]
    simp

end

/-! Fuel bounds in terms of serialized length. -/

mutual

theorem jsize_le_dumps (v : Json) : jsize v ≤ (dumpsChars v).length := by
  cases v with
  | null => simp [jsize, dumpsChars]
  | bool b => cases b <;> simp [jsize, dumpsChars]
  | num i =>
    have h1 : jsize (.num i) = 1 := rfl
    rw [h1]
    have h2 : dumpsChars (.num i) = intChars i := by simp [dumpsChars]
    rw [h2]
    unfold intChars
    by_cases hi : i < 0
    · rw [if_pos hi]
      simp
    · rw [if_neg hi]
      exact List.length_pos.mpr (natDigits_ne_nil i.toNat)
  | str s => simp [jsize, dumpsChars]
  | arr es =>
    cases es with
    | nil => simp [jsize, lsize, dumpsChars, dumpsElems]
    | cons e r =>
      have h1 := jsize_le_dumps e
      have h2 := lsizeSep_le r
      have h3 := jsize_pos e
      simp only [jsize, lsize, dumpsChars, dumpsElems, List.length_cons,
        List.length_append]
      omega
  | obj fs =>
    cases fs with
    | nil => simp [jsize, fsize, dumpsChars, dumpsFields]
    | cons kv r =>
      obtain ⟨k, v⟩ := kv
      have h1 := jsize_le_dumps v
      have h2 := fsizeSep_le r
      have h3 := jsize_pos v
      simp only [jsize, fsize, dumpsChars, dumpsFields, List.length_cons,
        List.length_append]
      omega

theorem lsizeSep_le (es : List Json) : lsize es ≤ (dumpsSepElems es).length + 1 := by
  cases es with
  | nil => simp [lsize, dumpsSepElems]
  | cons e r =>
    have h1 := jsize_le_dumps e
    have h2 := lsizeSep_le r
    simp only [lsize, dumpsSepElems, List.length_cons, List.length_append]
    omega

theorem fsizeSep_le (fs : List (String × Json)) :
    fsize fs ≤ (dumpsSepFields fs).length + 1 := by
  cases fs with
  | nil => simp [fsize, dumpsSepFields]
  | cons kv r =>
    obtain ⟨k, v⟩ := kv
    have h1 := jsize_le_dumps v
    have h2 := fsizeSep_le r
    simp only [fsize, dumpsSepFields, List.length_cons, List.length_append]
    omega

end

/-- Parsing inverts serialization: `json.loads` undoes `json.dumps` on well-formed values. -/
theorem loadsChars_dumps (v : Json) (hwf : WfJson v) :
    loadsChars (dumpsChars v) = .ok v := by
  unfold loadsChars
  obtain ⟨c, t, he, hnws, _, _, _⟩ := dumps_cons v
  have hskip : skipWs (dumpsChars v) = dumpsChars v := by
    rw [he]
    exact skipWs_cons_not hnws
  rw [hskip]
  have h := parseValue_dumps v hwf [] ((dumpsChars v).length + 1)
    (le_trans (jsize_le_dumps v) (by omega)) rfl
  rw [List.append_nil] at h
  rw [h]
  rfl

/-! ### Claim C3: fence stripping -/

theorem splitNL_ne_nil (l : List Char) : splitNL l ≠ [] := by
  cases l with
  | nil => simp [splitNL]
  | cons c rest =>
    simp only [splitNL]
    split <;> simp

theorem splitNL_append (x y : List Char) :
    splitNL (x ++ '\n' :: y) = splitNL x ++ splitNL y := by
  induction x with
  | nil => simp [splitNL]
  | cons c t ih =>
    obtain ⟨h, t', he⟩ := List.exists_cons_of_ne_nil (splitNL_ne_nil t)
    by_cases hc : c = '\n' <;>
      simp [splitNL, hc, ih, he]

theorem splitNL_eq_single (l : List Char) (h : '\n' ∉ l) : splitNL l = [l] := by
  induction l with
  | nil => rfl
  | cons c t ih =>
    have hc : ¬(c = '\n') := fun hh => h (by simp [hh])
    have ht : '\n' ∉ t := fun hh => h (by simp [hh])
    simp [splitNL, hc, ih ht]

theorem joinNL_cons_cons (c : Char) (h : List Char) (t : List (List Char)) :
    joinNL ((c :: h) :: t) = c :: joinNL (h :: t) := by
  cases t <;> simp [joinNL]

theorem joinNL_splitNL (l : List Char) : joinNL (splitNL l) = l := by
  induction l with
  | nil => rfl
  | cons c t ih =>
    obtain ⟨h, t', he⟩ := List.exists_cons_of_ne_nil (splitNL_ne_nil t)
    by_cases hc : c = '\n'
    · subst hc
      have hstep : splitNL ('\n' :: t) = [] :: splitNL t := by simp [splitNL]
      rw [hstep, he]
      have hstep2 : joinNL ([] :: h :: t') = '\n' :: joinNL (h :: t') := rfl
      rw [hstep2, ← he, ih]
    · simp only [splitNL, if_neg hc]
      rw [he]
      simp only [List.headD_cons, List.tail_cons]
      rw [joinNL_cons_cons, ← he, ih]

theorem stripChars_eq_self {l : List Char}
    (hh : ∀ c, l.head? = some c → isPyWs c = false)
    (hl : ∀ c, l.getLast? = some c → isPyWs c = false) : stripChars l = l := by
  unfold stripChars
  have h1 : l.dropWhile isPyWs = l := by
    cases l with
    | nil => rfl
    | cons c t =>
      rw [List.dropWhile_cons, if_neg]
      simp [hh c rfl]
  rw [h1, List.rdropWhile_eq_self_iff]
  intro hne
  have := hl (l.getLast hne) (List.getLast?_eq_getLast l hne ▸ rfl)
  simp [this]

theorem head?_dropWhile_false {p : Char → Bool} : ∀ {l : List Char} {c : Char},
    (l.dropWhile p).head? = some c → p c = false := by
  intro l
  induction l with
  | nil => intro c h; simp [List.dropWhile] at h
  | cons a t ih =>
    intro c h
    cases hp : p a with
    | true =>
      rw [List.dropWhile_cons, if_pos (by simp [hp])] at h
      exact ih h
    | false =>
      rw [List.dropWhile_cons, if_neg (by simp [hp])] at h
      rw [List.head?_cons] at h
      obtain rfl := Option.some.inj h
      exact hp

theorem stripChars_idem (l : List Char) : stripChars (stripChars l) = stripChars l := by
  unfold stripChars
  have h1 : ((l.dropWhile isPyWs).rdropWhile isPyWs).dropWhile isPyWs =
      (l.dropWhile isPyWs).rdropWhile isPyWs := by
    cases hr : (l.dropWhile isPyWs).rdropWhile isPyWs with
    | nil => rfl
    | cons a r =>
      obtain ⟨t, ht⟩ := List.rdropWhile_prefix isPyWs (l.dropWhile isPyWs)
      rw [hr] at ht
      have hma : (l.dropWhile isPyWs).head? = some a := by rw [← ht]; rfl
      have hfa : isPyWs a = false := head?_dropWhile_false hma
      rw [List.dropWhile_cons, if_neg (by simp [hfa])]
  rw [h1, List.rdropWhile_idempotent]

theorem stripChars_fence : stripChars fenceChars = fenceChars := by decide

/-- cleanChars on unfenced content is just `strip`. -/
theorem cleanChars_no_fence {l : List Char} (hnf : startsFence (stripChars l) = false) :
    cleanChars l = stripChars l := by
  simp only [cleanChars]
  rw [if_neg (by simp [hnf])]
  exact stripChars_idem l

/-- cleanChars on fenced content: drop the fence lines, keep the payload. -/
theorem cleanChars_wrap (tag content : String) (htag : '\n' ∉ tag.data) :
    cleanChars (("```" ++ tag ++ "\n" ++ content ++ "\n" ++ "```").data) =
      stripChars content.data := by
  have hdata : ("```" ++ tag ++ "\n" ++ content ++ "\n" ++ "```").data =
      (fenceChars ++ tag.data) ++ '\n' :: (content.data ++ '\n' :: fenceChars) := by
    simp [String.data_append, fenceChars]
  rw [hdata]
  have hstrip : stripChars ((fenceChars ++ tag.data) ++ '\n' ::
      (content.data ++ '\n' :: fenceChars)) =
      (fenceChars ++ tag.data) ++ '\n' :: (content.data ++ '\n' :: fenceChars) := by
    apply stripChars_eq_self
    · intro c hc
      simp [fenceChars] at hc
      subst hc; decide
    · intro c hc
      have hW : (fenceChars ++ tag.data) ++ '\n' ::
          (content.data ++ '\n' :: fenceChars) =
          ((fenceChars ++ tag.data) ++ '\n' :: (content.data ++ ['\n'])) ++ fenceChars := by
        simp
      rw [hW, List.getLast?_append,
        show fenceChars.getLast? = some (fenceChars.getLastD (' ')) from rfl] at hc
      simp only [Option.or_some, Option.some.injEq] at hc
      subst hc
      decide
  have hsf : startsFence ((fenceChars ++ tag.data) ++ '\n' ::
      (content.data ++ '\n' :: fenceChars)) = true := by
    simp [startsFence, fenceChars, List.isPrefixOf]
  have hsplitnl : splitNL ((fenceChars ++ tag.data) ++ '\n' ::
      (content.data ++ '\n' :: fenceChars)) =
      (fenceChars ++ tag.data) :: (splitNL content.data ++ [fenceChars]) := by
    rw [splitNL_append, splitNL_eq_single (fenceChars ++ tag.data) (by simp [fenceChars, htag]),
      splitNL_append, splitNL_eq_single fenceChars (by simp [fenceChars])]
    rfl
  have hdropfirst : dropFenceLine ((fenceChars ++ tag.data) ::
      (splitNL content.data ++ [fenceChars])) = splitNL content.data ++ [fenceChars] := by
    have hsf2 : startsFence (fenceChars ++ tag.data) = true := by
      simp [startsFence, fenceChars, List.isPrefixOf]
    simp [dropFenceLine, hsf2]
  have hdroplast : dropClosingFence (splitNL content.data ++ [fenceChars]) =
      splitNL content.data := by
    have hlastd : (splitNL content.data ++ [fenceChars]).getLastD [] = fenceChars := by
      simp [List.getLastD_eq_getLast?, List.getLast?_concat]
    simp only [dropClosingFence]
    rw [if_pos ⟨by simp, by rw [hlastd, stripChars_fence]⟩, List.dropLast_concat]
  simp only [cleanChars]
  rw [hstrip, if_pos hsf, hsplitnl, hdropfirst, hdroplast, joinNL_splitNL]

/-- How `parse_llm_json_response` sees its input: only through the cleaned
content. -/
theorem parse_congr_cleaned (a b : String) (pk : Option (List String))
    (h : cleanChars a.data = cleanChars b.data) :
    parse_llm_json_response a pk = parse_llm_json_response b pk := by
  unfold parse_llm_json_response
  rw [h]

/-- C3 (amended): wrapping content whose stripped form does not itself begin
with a code fence in markdown fences (any newline-free opening-line tag, in
particular `` ``` `` or `` ```json ``) does not change the result of
`parse_llm_json_response`. -/
theorem c3_fence_wrap_invariant (tag content : String) (pk : Option (List String))
    (htag : '\n' ∉ tag.data)
    (hnf : startsFence (stripChars content.data) = false) :
    parse_llm_json_response ("```" ++ tag ++ "\n" ++ content ++ "\n" ++ "```") pk =
      parse_llm_json_response content pk := by
  apply parse_congr_cleaned
  rw [cleanChars_wrap tag content htag]
  exact (cleanChars_no_fence hnf).symm

theorem c3_fence_wrap_invariant_witness :
    ('\n' ∉ "json".data) ∧
    (startsFence (stripChars ("[1, 2]").data) = false) ∧
    parse_llm_json_response ("```" ++ "json" ++ "\n" ++ "[1, 2]" ++ "\n" ++ "```") none =
      parse_llm_json_response ("[1, 2]") none :=
  ⟨by decide, by decide,
   c3_fence_wrap_invariant ("json") ("[1, 2]") none (by decide) (by decide)⟩

/-- C3 counterexample to the claim as stated: for content that itself begins
with a code fence, wrapping changes the result (the unwrapped content gets its
own fence stripped, the wrapped one does not). -/
theorem c3_fence_wrap_refuted :
    parse_llm_json_response ("```\n```\n```") none ≠
      parse_llm_json_response ("```") none := by
  intro h
  have h2 := congrArg Prod.snd h
  exact absurd h2 (by decide)

/-! ### Claim C1: the round trip through `parse_llm_json_response` -/

theorem startsFence_bracket (x : List Char) : startsFence ('[' :: x) = false := rfl

/-- The serialized form of an array needs no cleaning. -/
theorem cleanChars_dumps_arr (xs : List Json) :
    cleanChars (dumpsChars (.arr xs)) = dumpsChars (.arr xs) := by
  have hshape : dumpsChars (.arr xs) = '[' :: (dumpsElems xs ++ [']']) := by
    simp [dumpsChars]
  have hstrip : stripChars (dumpsChars (.arr xs)) = dumpsChars (.arr xs) := by
    rw [hshape]
    apply stripChars_eq_self
    · intro c hc
      simp at hc
      subst hc
      decide
    · intro c hc
      rw [show ('[' :: (dumpsElems xs ++ [']'])) = ('[' :: dumpsElems xs) ++ [']'] by simp,
        List.getLast?_concat] at hc
      simp at hc
      subst hc
      decide
  rw [cleanChars_no_fence (by rw [hstrip, hshape]; exact startsFence_bracket _), hstrip]

/-- C1: normalizing the JSON serialization of any well-formed list (possibly
empty, and whatever the candidate keys) returns the list unchanged with no
error.  (Well-formedness — nested objects have distinct keys — is inherent in
being the serialization of a Python value, since Python dicts cannot repeat
keys.) -/
theorem c1_roundtrip (xs : List Json) (pk : Option (List String))
    (hwf : WfJson (.arr xs)) :
    parse_llm_json_response (dumpsStr (.arr xs)) pk = (.arr xs, none) := by
  have hdata : (dumpsStr (.arr xs)).data = dumpsChars (.arr xs) := rfl
  simp only [parse_llm_json_response, hdata, cleanChars_dumps_arr,
    loadsChars_dumps (.arr xs) hwf]

theorem c1_roundtrip_witness :
    WfJson (.arr [.obj [("a", .num 1)], .num (-2), .str ("x y")]) ∧
    parse_llm_json_response
      (dumpsStr (.arr [.obj [("a", .num 1)], .num (-2), .str ("x y")])) none =
      (.arr [.obj [("a", .num 1)], .num (-2), .str ("x y")], none) := by
  have hwf : WfJson (.arr [.obj [("a", .num 1)], .num (-2), .str ("x y")]) := by
    refine WfJson.arr _ ?_
    intro e he
    simp only [List.mem_cons, List.not_mem_nil, or_false] at he
    rcases he with he | he | he
    · subst he
      refine WfJson.obj _ (by simp) ?_
      intro kv hkv
      rw [List.mem_singleton] at hkv
      subst hkv
      exact WfJson.num 1
    · subst he
      exact WfJson.num (-2)
    · subst he
      exact WfJson.str ("x y")
  exact ⟨hwf, c1_roundtrip _ none hwf⟩

end CM
